import Mathlib

/-!
Shallow embedding of `bicrystal.py` (gosam) and proofs about its claims.

Conventions: Python floats are modelled by exact rationals (or an arbitrary
linear ordered field where the statement calls for it); `numpy` 3x3 arrays by
`Matrix (Fin 3) (Fin 3) K`; fallible code by `Except`.  External collaborator
functions (`csl`, `rotmat`, `monocryst`) that are only called, never inspected,
are passed as parameters; the one collaborator whose behaviour a claim depends
on (`remove_close_neighbours`) is modelled from the spec and marked as such.
-/

set_option maxHeartbeats 1000000

namespace Gosam

/-! ## 3x3 matrices: determinant, adjugate and inverse (numpy.linalg.inv) -/

abbrev Mat3 (K : Type) := Matrix (Fin 3) (Fin 3) K

/-- Explicit 3x3 determinant, as computed by expansion along the first row. -/
def det3 {K : Type} [CommRing K] (A : Mat3 K) : K :=
  A 0 0 * (A 1 1 * A 2 2 - A 2 1 * A 1 2)
    - A 0 1 * (A 1 0 * A 2 2 - A 2 0 * A 1 2)
    + A 0 2 * (A 1 0 * A 2 1 - A 2 0 * A 1 1)

/-- Explicit 3x3 adjugate (transpose of the cofactor matrix). -/
def adj3 {K : Type} [CommRing K] (A : Mat3 K) : Mat3 K :=
  !![A 1 1 * A 2 2 - A 2 1 * A 1 2,
     A 2 1 * A 0 2 - A 0 1 * A 2 2,
     A 0 1 * A 1 2 - A 1 1 * A 0 2;
     A 2 0 * A 1 2 - A 1 0 * A 2 2,
     A 0 0 * A 2 2 - A 2 0 * A 0 2,
     A 1 0 * A 0 2 - A 0 0 * A 1 2;
     A 1 0 * A 2 1 - A 2 0 * A 1 1,
     A 2 0 * A 0 1 - A 0 0 * A 2 1,
     A 0 0 * A 1 1 - A 1 0 * A 0 1]

/-- Executable 3x3 matrix inverse: embeds `numpy.linalg.inv` on 3x3 input. -/
def inv3 {K : Type} [Field K] (A : Mat3 K) : Mat3 K :=
  (det3 A)⁻¹ • adj3 A

/-- Dot product of two 3-vectors (numpy.inner on 1-d input). -/
def dot3 {K : Type} [CommRing K] (u v : Fin 3 → K) : K := ∑ i, u i * v i

/-! ## Claim C1: which orientation matrix goes to which grain

Embeds `Bicrystal.__init__` (lines 69-78), `Bicrystal.generate_atoms`
(lines 81-86) and the construction of `rot_mat1`, `rot_mat2` and `config`
in `main` (lines 310-324).  The lattice and the atom generator of
`RotatedMonocrystal` are external, so they stay abstract. -/

/-- Embeds `RotatedMonocrystal(lattice, dim, rot)`: the constructor arguments
it is handed.  The lattice type `L` is abstract. -/
structure RotatedMonocrystal (L K : Type) where
  lattice : L
  dim : Fin 3 → ℚ
  rot : Mat3 K

/-- State of a `Bicrystal` after `__init__`: the two half crystals. -/
structure BicrystalModel (L K : Type) where
  mono_u : RotatedMonocrystal L K
  mono_b : RotatedMonocrystal L K

/-- Embeds `Bicrystal.__init__(self, lattice, dim, rot_u, rot_b, title)`
(lines 69-78): `mono_u` is built from `rot_u` and `mono_b` from `rot_b`
(the deepcopy of the lattice is value semantics here). -/
def BicrystalModel.init {L K : Type} (lattice : L) (dim : Fin 3 → ℚ)
    (rot_u rot_b : Mat3 K) : BicrystalModel L K :=
  { mono_u := ⟨lattice, dim, rot_u⟩, mono_b := ⟨lattice, dim, rot_b⟩ }

/-- Embeds `Bicrystal.generate_atoms` (lines 81-86): the upper half is
generated with `upper=True` from `mono_u`, then the bottom half with
`upper=False` from `mono_b`, and the two lists are concatenated.  The
monocrystal atom generator `gen` is external and stays abstract. -/
def BicrystalModel.generate_atoms {L K A : Type}
    (gen : RotatedMonocrystal L K → Bool → List A) (b : BicrystalModel L K) :
    List A :=
  gen b.mono_u true ++ gen b.mono_b false

/-- Embeds `rot_mat1 = dot(linalg.inv(R), invrot)` (line 310). -/
def rot_mat1 {K : Type} [Field K] (R invrot : Mat3 K) : Mat3 K :=
  inv3 R * invrot

/-- Embeds `rot_mat2 = invrot` (line 311). -/
def rot_mat2 {K : Type} (invrot : Mat3 K) : Mat3 K := invrot

/-- Embeds `config = Bicrystal(lattice, opts.dim, rot_mat1, rot_mat2, title=title)`
(lines 323-324): `rot_mat1` is passed in the `rot_u` slot and `rot_mat2` in the
`rot_b` slot. -/
def mainConfig {L K : Type} [Field K] (lattice : L) (dim : Fin 3 → ℚ)
    (R invrot : Mat3 K) : BicrystalModel L K :=
  BicrystalModel.init lattice dim (rot_mat1 R invrot) (rot_mat2 invrot)

/-! ## Claim C2: the orthonormality assertion on `rot` (lines 290-299)

`main` takes `pbct = min_pbc.transpose()`, normalizes each of its rows
(that is, each column of `min_pbc`) and asserts that the transpose of the
resulting `rot` equals its inverse within 1e-9.  The row lengths involve a
square root, so they are passed as an explicit argument `len` constrained
by `len i ^ 2 = inner(pbct[i], pbct[i])` and `0 < len i` in the theorems. -/

/-- Embeds `pbct = min_pbc.transpose().astype(float)` (line 291). -/
def pbct {K : Type} (min_pbc : Mat3 K) : Mat3 K := min_pbc.transpose

/-- Embeds the loop `rot[i] = pbct[i] / length` (lines 293-296), with the
Euclidean row lengths `len` supplied explicitly. -/
def rotFromPbc {K : Type} [Field K] (min_pbc : Mat3 K) (len : Fin 3 → K) :
    Mat3 K :=
  Matrix.of fun i j => pbct min_pbc i j / len i

/-- The tolerance `1e-9` of the assertion on line 298. -/
def tol : ℚ := 1 / 10 ^ 9

/-- Embeds the assertion `(numpy.abs(invrot - linalg.inv(rot)) < 1e-9).all()`
(line 298), where `invrot = rot.transpose()` (line 297). -/
def orthoAssertHolds {K : Type} [LinearOrderedField K] (rot : Mat3 K) : Prop :=
  ∀ i j, |rot.transpose i j - inv3 rot i j| < (tol : K)

instance {K : Type} [LinearOrderedField K]
    [DecidableEq K] [DecidableRel (LT.lt (α := K))] (rot : Mat3 K) :
    Decidable (orthoAssertHolds rot) := by
  unfold orthoAssertHolds; infer_instance

/-- Embeds the fate of the run at the assert: on failure the `assert`
statement raises `AssertionError` and the run terminates. -/
def orthoAssertStep (rot : Mat3 ℚ) : Except String Unit :=
  if orthoAssertHolds rot then .ok () else .error "AssertionError"

/-- Concrete rotation matrix by 90 degrees about the z axis, a possible value
of `R = rodrigues(opts.axis, opts.theta)` (axis 001, theta = pi/2). -/
def R90 : Mat3 ℚ := !![0, -1, 0; 1, 0, 0; 0, 0, 1]

/-- Concrete `min_pbc` whose rows are non-zero and mutually orthogonal but
whose columns are not mutually orthogonal. -/
def minPbcRowOrth : Mat3 ℚ := !![4, 4, 0; -3, 3, 0; 0, 0, 1]

/-- The Euclidean lengths of the rows of `minPbcRowOrth.transpose`. -/
def lenRowOrth : Fin 3 → ℚ := ![5, 5, 1]

/-- Concrete `min_pbc` whose columns are non-zero and mutually orthogonal,
with rational column lengths. -/
def minPbcColOrth : Mat3 ℚ := !![3, 4, 0; -4, 3, 0; 0, 0, 1]

/-- The Euclidean lengths of the rows of `minPbcColOrth.transpose`. -/
def lenColOrth : Fin 3 → ℚ := ![5, 5, 1]

/-! ## Claim C3: BicrystalOptions.find_dim (lines 154-171) -/

/-- The fields of `BicrystalOptions` that `find_dim` reads. -/
structure FitOptions where
  req_dim : Fin 3 → ℚ
  mono1 : Bool
  mono2 : Bool
  fit : Bool
  zfit : Bool
  vacuum : Option ℚ

/-- Embeds the Python 2 idiom `ceil(x) or 1` on line 165: `math.ceil` returns
a float there, and `or` replaces it by 1 exactly when it equals 0.0; a
negative ceiling is truthy and survives. -/
def ceilOr1 (x : ℚ) : ℤ := if ⌈x⌉ = 0 then 1 else ⌈x⌉

/-- Embeds `fit_dim` (lines 159-163): x and y are fitted when `fit` holds,
z additionally requires `zfit`. -/
def fit_dim (o : FitOptions) : List (Fin 3) :=
  if o.fit then [0, 1] ++ (if o.zfit then [2] else []) else []

/-- Embeds lines 156-158: nm to Angstrom scaling, and the doubling of the z
dimension in monocrystal (`mono1`/`mono2`) mode. -/
def dimScaled (o : FitOptions) : Fin 3 → ℚ := fun i =>
  if (o.mono1 || o.mono2) ∧ i = 2 then o.req_dim i * 10 * 2
  else o.req_dim i * 10

/-- Embeds the fitting loop (lines 164-166): each flagged axis is set to
`mult * min_dim[i]` with `mult = ceil(dim[i] / min_dim[i]) or 1`. -/
def dimFitted (o : FitOptions) (min_dim : Fin 3 → ℚ) : Fin 3 → ℚ := fun i =>
  if i ∈ fit_dim o then (ceilOr1 (dimScaled o i / min_dim i) : ℚ) * min_dim i
  else dimScaled o i

/-- Embeds all of `find_dim` (lines 154-171): the fitting loop, then the
vacuum margin added to dim z (`if self.vacuum:` is Python truthiness, so
`None` and `0.0` both skip the addition). -/
def find_dim (o : FitOptions) (min_dim : Fin 3 → ℚ) : Fin 3 → ℚ := fun i =>
  if i = 2 ∧ o.vacuum.getD 0 ≠ 0 then dimFitted o min_dim i + o.vacuum.getD 0
  else dimFitted o min_dim i

/-- Concrete options with a negative requested x dimension (-2 nm). -/
def negOpts : FitOptions := ⟨![-2, 1, 1], false, false, true, true, none⟩

/-- Concrete options requesting (2, 2, 2) nm. -/
def posOpts : FitOptions := ⟨![2, 2, 2], false, false, true, true, none⟩

/-! ## Claim C4: the median-plane branch of parse_args (lines 185-197) -/

/-- Integer dot product (numpy.inner on integer Miller-index vectors). -/
def dotZ (u v : Fin 3 → ℤ) : ℤ := ∑ i, u i * v i

/-- Embeds the median-plane branch of `parse_args` (lines 188-194): raise
ValueError when the plane is not orthogonal to the axis, otherwise rotate
the plane by `R` and integerize.  `R` stands for
`rodrigues(opts.axis, opts.theta / 2., verbose=False)` and
`scale_to_integers` for `csl.scale_to_integers`; both are external
collaborators and stay abstract. -/
def parseMedianPlane {K : Type} [Field K] (R : Mat3 K)
    (scale_to_integers : (Fin 3 → K) → Fin 3 → ℤ)
    (m_plane axis : Fin 3 → ℤ) : Except String (Fin 3 → ℤ) :=
  if dotZ m_plane axis ≠ 0 then
    .error "Axis must be contained in median plane."
  else
    .ok (scale_to_integers (R.mulVec fun i => (m_plane i : K)))

/-- Stub `scale_to_integers` collaborator for witnesses. -/
def scaleStub : (Fin 3 → ℚ) → Fin 3 → ℤ := fun _ => ![0, 0, 1]

/-! ## Claim C5: parse_sigma_and_find_theta (lines 123-151) -/

/-- A diagnostic on which the run stops: message and process exit status.
`sys.exit()` with no argument raises SystemExit(None), on which the
interpreter exits with status 0. -/
structure Diagnostic where
  message : String
  exitStatus : ℕ

/-- The sigma argument after the syntactic dispatch of lines 124-142:
`theta=<v>`, `u<int>` (minimum-angle variant), a single integer, or `m,n`. -/
inductive SigmaArg (K : Type) where
  | thetaEq (value : K)
  | uSigma (sigma : ℤ)
  | plain (sigma : ℤ)
  | mn (m n : ℤ)

/-- The fields set by `parse_sigma_and_find_theta` on success
(lines 148-151). -/
structure ThetaResult (K : Type) where
  sigma : Option ℤ
  theta : K
  m : Option ℤ
  n : Option ℤ

/-- Embeds `parse_sigma_and_find_theta` (lines 123-151).  The csl
collaborators `find_theta`, `get_cubic_sigma` and `get_cubic_theta` are
external and passed as parameters; `minAngle45` stands for `radians(45.)`.
When `find_theta` returns no solution the code prints
"CSL not found! Wrong sigma or axis?" and calls `sys.exit()` (exit
status 0). -/
def parse_sigma_and_find_theta {K : Type}
    (find_theta : (Fin 3 → ℤ) → ℤ → Option K → Option (K × ℤ × ℤ))
    (get_cubic_sigma : (Fin 3 → ℤ) → ℤ → ℤ → ℤ)
    (get_cubic_theta : (Fin 3 → ℤ) → ℤ → ℤ → K)
    (minAngle45 : K) (axis : Fin 3 → ℤ) (arg : SigmaArg K) :
    Except Diagnostic (ThetaResult K) :=
  match arg with
  | .thetaEq v => .ok ⟨none, v, none, none⟩
  | .uSigma s =>
    match find_theta axis s (some minAngle45) with
    | none => .error ⟨"CSL not found! Wrong sigma or axis?", 0⟩
    | some (t, m, n) => .ok ⟨some s, t, some m, some n⟩
  | .plain s =>
    match find_theta axis s none with
    | none => .error ⟨"CSL not found! Wrong sigma or axis?", 0⟩
    | some (t, m, n) => .ok ⟨some s, t, some m, some n⟩
  | .mn m n =>
    .ok ⟨some (get_cubic_sigma axis m n), get_cubic_theta axis m n,
      some m, some n⟩

/-- A `csl.find_theta` stub that finds no CSL solution. -/
def findThetaNone : (Fin 3 → ℤ) → ℤ → Option ℚ → Option (ℚ × ℤ × ℤ) :=
  fun _ _ _ => none

/-- Stub cubic-sigma collaborator (not consulted on the plain-sigma path). -/
def cubicSigmaStub : (Fin 3 → ℤ) → ℤ → ℤ → ℤ := fun _ _ _ => 0

/-- Stub cubic-theta collaborator (not consulted on the plain-sigma path). -/
def cubicThetaStub : (Fin 3 → ℤ) → ℤ → ℤ → ℚ := fun _ _ _ => 0

/-! ## Claim C6: edge carving (lines 347-353) -/

/-- An atom: species name and position in Angstrom. -/
structure Atom where
  name : String
  pos : Fin 3 → ℚ
deriving DecidableEq

/-- The selection predicate of line 350: y in the lower half of the box
(0 < y <= pbc_y/2) and z strictly between the bounds (z1 < z < z2). -/
def edge_predicate (pbc_y z1 z2 : ℚ) (a : Atom) : Bool :=
  decide (0 < a.pos 1 ∧ a.pos 1 ≤ pbc_y / 2 ∧ z1 < a.pos 2 ∧ a.pos 2 < z2)

/-- Embeds `[n for n, a in enumerate(...) if p(a)]` with the enumeration
counter starting at `start`. -/
def selFrom (p : Atom → Bool) (start : ℕ) : List Atom → List ℕ
  | [] => []
  | a :: rest => (if p a then [start] else []) ++ selFrom p (start + 1) rest

/-- Embeds `sel = [n for n, a in enumerate(config.atoms) if ...]`
(lines 349-350), where `config.pbc[1][1]` is the y extent of the box. -/
def edge_sel (pbc_y z1 z2 : ℚ) (atoms : List Atom) : List ℕ :=
  selFrom (edge_predicate pbc_y z1 z2) 0 atoms

/-- Embeds `for i in reversed(sel): del config.atoms[i]` (lines 352-353). -/
def edge_carve (pbc_y z1 z2 : ℚ) (atoms : List Atom) : List Atom :=
  (edge_sel pbc_y z1 z2 atoms).reverse.foldl (fun l n => l.eraseIdx n) atoms

/-! ## Claims C7 and C10: the remove2 branch of main (lines 331-345)

The branch partitions `config.atoms` by the first atom's species name and
calls `config.remove_close_neighbours(distance=..., atoms=aa)` on each
group.  `remove_close_neighbours` lives in `monocryst.py`, which is part of
this repository but not under src/, so it is modelled from the spec. -/

/-- Modelled from the spec: the nearest-periodic-image displacement used by
the close-neighbour removal, which must account "for periodic wrap-around
at box edges" (spec 4.7). -/
def minImage (d p : ℚ) : ℚ := d - p * round (d / p)

/-- Modelled from the spec: squared distance of two positions under
periodic wrap-around in the orthorhombic box `pbc`. -/
def pbcDist2 (pbc : Fin 3 → ℚ) (u v : Fin 3 → ℚ) : ℚ :=
  ∑ i, (minImage (u i - v i) (pbc i)) ^ 2

/-- Modelled from the spec: two atoms at distance less than `dist`. -/
def closePair (dist : ℚ) (pbc : Fin 3 → ℚ) (a b : Atom) : Bool :=
  decide (pbcDist2 pbc a.pos b.pos < dist ^ 2)

/-- Modelled from the spec: the removal pass of `remove_close_neighbours`
(spec 4.7: "when exactly one atom of each close pair must be removed,
removal order is stable: first-encountered atom in iteration order is kept,
the later one removed").  `kept` accumulates the atoms already kept. -/
def rcnGo (dist : ℚ) (pbc : Fin 3 → ℚ) : List Atom → List Atom → List Atom
  | _, [] => []
  | kept, a :: rest =>
    if kept.any (fun b => closePair dist pbc b a) then rcnGo dist pbc kept rest
    else a :: rcnGo dist pbc (kept ++ [a]) rest

/-- Modelled from the spec: `remove_close_neighbours(distance, atoms)`,
returning the retained atoms in their original order. -/
def remove_close_neighbours (dist : ℚ) (pbc : Fin 3 → ℚ)
    (atoms : List Atom) : List Atom :=
  rcnGo dist pbc [] atoms

/-- Embeds one iteration of `for aa in a_atoms, b_atoms:` (lines 341-345):
the `print` on lines 342-343 evaluates `aa[0].name`, which raises IndexError
on an empty group; otherwise the group is filtered by the close-neighbour
removal. -/
def processGroup (dist : ℚ) (pbc : Fin 3 → ℚ) (aa : List Atom) :
    Except String (List Atom) :=
  match aa with
  | [] => .error "IndexError: list index out of range"
  | _ :: _ => .ok (remove_close_neighbours dist pbc aa)

/-- The group of atoms whose name equals `a_name` (the a_atoms of the loop
on lines 335-339). -/
def groupA (a_name : String) (atoms : List Atom) : List Atom :=
  atoms.filter (fun i => i.name == a_name)

/-- The group of atoms whose name differs from `a_name` (the b_atoms of the
loop on lines 335-339). -/
def groupB (a_name : String) (atoms : List Atom) : List Atom :=
  atoms.filter (not ∘ fun i => i.name == a_name)

/-- Embeds the remove2 branch of `main` (lines 331-345): read the first
atom's name (`config.atoms[0]`, IndexError on an empty configuration),
partition the atoms in one pass into the group with that name and the rest
(embedded as the two filters `groupA`/`groupB`), process each group, and
reassemble group A before group B. -/
def remove2Step (dist : ℚ) (pbc : Fin 3 → ℚ) (atoms : List Atom) :
    Except String (List Atom) :=
  match atoms with
  | [] => .error "IndexError: list index out of range"
  | a0 :: _ => do
    let fa ← processGroup dist pbc (groupA a0.name atoms)
    let fb ← processGroup dist pbc (groupB a0.name atoms)
    return fa ++ fb

/-- Concrete atoms: one species "A" atom and a close "X"/"Y" pair. -/
def atomA : Atom := ⟨"A", ![0, 0, 0]⟩

/-- Concrete atom of species "X" at (3,3,3). -/
def atomX : Atom := ⟨"X", ![3, 3, 3]⟩

/-- Concrete atom of species "Y", coincident with `atomX`. -/
def atomY : Atom := ⟨"Y", ![3, 3, 3]⟩

/-- Concrete atom of species "B", far from `atomA`. -/
def atomB : Atom := ⟨"B", ![1, 1, 1]⟩

/-- Concrete atoms of one single species "C". -/
def atomC1 : Atom := ⟨"C", ![0, 0, 0]⟩

/-- Second concrete atom of species "C". -/
def atomC2 : Atom := ⟨"C", ![5, 5, 5]⟩

/-- A concrete periodic box. -/
def pbcBox : Fin 3 → ℚ := ![100, 100, 100]

/-! ## Claims C8 and C9: the option loop of parse_args (lines 201-244) -/

/-- A Python exception raised by the option loop: a failed `assert` or a
raised ValueError. -/
inductive PyError where
  | assertionError
  | valueError (msg : String)
deriving DecidableEq

/-- An option token of the documented option list, with its parsed
payload (distances and lengths already converted to numbers, the shift
components split on commas). -/
inductive OptTok where
  | nofit
  | nozfit
  | mono1
  | mono2
  | all
  | allall
  | remove (dist : ℚ)
  | remove2 (dist : ℚ)
  | vacuum (length : ℚ)
  | lattice (name : String)
  | shift (s : List ℚ)
  | edge (z1 z2 : ℚ)
deriving DecidableEq

/-- The `BicrystalOptions` fields written by the option loop, all
initialized to None by `__init__` (lines 100-120) except
`lattice_name = "sic"`. -/
structure ParsedOpts where
  fit : Option Bool
  zfit : Option Bool
  mono1 : Option Bool
  mono2 : Option Bool
  all : Option Bool
  allall : Option Bool
  remove_dist : Option ℚ
  remove_dist2 : Option ℚ
  vacuum : Option ℚ
  lattice_name : String
  lattice_shift : Option (List ℚ)
  edge : Option (ℚ × ℚ)
deriving DecidableEq

/-- The option state before the loop. -/
def initOpts : ParsedOpts :=
  ⟨none, none, none, none, none, none, none, none, none, "sic", none, none⟩

/-- Embeds one iteration of the option loop (lines 202-244).  The test for
"nofit" (lines 203-205) is a separate `if` statement, not part of the
following chain: after it runs, a "nofit" token still falls through to the
second if/elif chain (lines 206-244), matches none of its branches, and
hits the final `else: raise ValueError("Unknown option: ...")`.  The
`vacuum` branch stores the value scaled by 10 (nm to Angstrom); `lattice`,
`shift` and `edge` have no duplicate assert. -/
def applyOption (o : ParsedOpts) (t : OptTok) : Except PyError ParsedOpts := do
  let o1 ← match t with
    | .nofit =>
      if o.fit ≠ none then Except.error PyError.assertionError
      else Except.ok { o with fit := some false }
    | _ => Except.ok o
  match t with
  | .nozfit =>
    if o1.zfit ≠ none then .error .assertionError
    else .ok { o1 with zfit := some false }
  | .mono1 =>
    if o1.mono1 ≠ none then .error .assertionError
    else .ok { o1 with mono1 := some true }
  | .mono2 =>
    if o1.mono2 ≠ none then .error .assertionError
    else .ok { o1 with mono2 := some true }
  | .all =>
    if o1.all ≠ none ∨ o1.allall ≠ none then .error .assertionError
    else .ok { o1 with all := some true }
  | .allall =>
    if o1.allall ≠ none ∨ o1.all ≠ none then .error .assertionError
    else .ok { o1 with allall := some true }
  | .remove d =>
    if o1.remove_dist ≠ none then .error .assertionError
    else .ok { o1 with remove_dist := some d }
  | .remove2 d =>
    if o1.remove_dist2 ≠ none then .error .assertionError
    else .ok { o1 with remove_dist2 := some d }
  | .vacuum v =>
    if o1.vacuum ≠ none then .error .assertionError
    else .ok { o1 with vacuum := some (v * 10) }
  | .lattice name => .ok { o1 with lattice_name := name }
  | .shift s =>
    if s.length ≠ 3 then .error (.valueError "Wrong format of shift parameter")
    else .ok { o1 with lattice_shift := some s }
  | .edge z1 z2 => .ok { o1 with edge := some (z1, z2) }
  | .nofit => .error (.valueError "Unknown option: nofit")

/-- Embeds the loop `for i in options:` (lines 202-244) over the whole
option segment; a raised exception aborts the loop. -/
def parse_options (toks : List OptTok) (o : ParsedOpts) :
    Except PyError ParsedOpts :=
  toks.foldlM applyOption o

/-- Numeric code identifying which documented option a token instantiates
(two `remove:` tokens with different distances are the same option). -/
def OptTok.kind : OptTok → ℕ
  | .nofit => 0
  | .nozfit => 1
  | .mono1 => 2
  | .mono2 => 3
  | .all => 4
  | .allall => 5
  | .remove _ => 6
  | .remove2 _ => 7
  | .vacuum _ => 8
  | .lattice _ => 9
  | .shift _ => 10
  | .edge _ _ => 11

/-- The option kinds on which a repeated occurrence cannot be silently
accepted: nofit (which always raises) and the eight assert-protected
options; `lattice:`, `shift:` and `edge:` (kinds 9-11) are excluded. -/
def kindChecked (k : ℕ) : Bool := decide (k < 9)

/-- For a checked kind, the `BicrystalOptions` field that witnesses an
earlier occurrence of that option. -/
def markerOfKind (k : ℕ) (o : ParsedOpts) : Bool :=
  if k = 0 then o.fit.isSome
  else if k = 1 then o.zfit.isSome
  else if k = 2 then o.mono1.isSome
  else if k = 3 then o.mono2.isSome
  else if k = 4 then o.all.isSome
  else if k = 5 then o.allall.isSome
  else if k = 6 then o.remove_dist.isSome
  else if k = 7 then o.remove_dist2.isSome
  else if k = 8 then o.vacuum.isSome
  else false

end Gosam

/-! ### Theorems -/

namespace Gosam

theorem det3_eq {K : Type} [CommRing K] (A : Mat3 K) : det3 A = A.det := by
  rw [Matrix.det_fin_three, det3]; ring

theorem adj3_eq {K : Type} [CommRing K] (A : Mat3 K) : adj3 A = A.adjugate := by
  rw [Matrix.adjugate_fin_three, adj3]
  ext i j
  fin_cases i <;> fin_cases j <;> simp <;> ring

theorem inv3_eq_inv {K : Type} [Field K] (A : Mat3 K) : inv3 A = A⁻¹ := by
  rw [inv3, det3_eq, adj3_eq, Matrix.inv_def, Ring.inverse_eq_inv]

theorem inv3_of_right_inv {K : Type} [Field K] {A B : Mat3 K}
    (h : A * B = 1) : inv3 A = B := by
  rw [inv3_eq_inv]; exact Matrix.inv_eq_right_inv h

/-- C1, counterexample.  At `R = R90` and `invrot = 1` the bicrystal built by
`main` does NOT apply `rot_mat1` to the bottom grain and `rot_mat2` to the
upper grain: the claim as stated is false on the code. -/
theorem c1_counterexample :
    ¬ ((mainConfig () (fun _ => 10) R90 (1 : Mat3 ℚ)).mono_b.rot
          = rot_mat1 R90 1
        ∧ (mainConfig () (fun _ => 10) R90 (1 : Mat3 ℚ)).mono_u.rot
          = rot_mat2 1) := by
  intro h
  have h1 := congrFun (congrFun h.1 0) 1
  norm_num [mainConfig, BicrystalModel.init, rot_mat1, rot_mat2, inv3, det3,
    adj3, R90, Matrix.mul_apply, Fin.sum_univ_three, Matrix.one_apply,
    Matrix.smul_apply] at h1

/-- C1, amended.  `rot_mat1 = inverse(R) * invrot` is applied to the UPPER
grain (`mono_u`, generated with `upper=True`) and `rot_mat2 = invrot` to the
BOTTOM grain (`mono_b`, generated with `upper=False`). -/
theorem c1_amended {L K A : Type} [Field K] (lattice : L) (dim : Fin 3 → ℚ)
    (R invrot : Mat3 K) (gen : RotatedMonocrystal L K → Bool → List A) :
    (mainConfig lattice dim R invrot).mono_u.rot = rot_mat1 R invrot
    ∧ (mainConfig lattice dim R invrot).mono_b.rot = rot_mat2 invrot
    ∧ BicrystalModel.generate_atoms gen (mainConfig lattice dim R invrot)
      = gen ⟨lattice, dim, rot_mat1 R invrot⟩ true
        ++ gen ⟨lattice, dim, rot_mat2 invrot⟩ false :=
  ⟨rfl, rfl, rfl⟩

/-- C2, counterexample.  `minPbcRowOrth` has non-zero, mutually orthogonal
rows, `lenRowOrth` are the genuine Euclidean lengths of the rows of its
transpose, and yet the orthonormality assertion on the resulting `rot` fails
(and the run terminates with an AssertionError): row orthogonality of
`min_pbc` is not the right precondition. -/
theorem c2_counterexample :
    (∀ i, dot3 (minPbcRowOrth i) (minPbcRowOrth i) ≠ 0)
    ∧ (∀ i j, i ≠ j → dot3 (minPbcRowOrth i) (minPbcRowOrth j) = 0)
    ∧ (∀ i, 0 < lenRowOrth i
        ∧ lenRowOrth i ^ 2 = dot3 (pbct minPbcRowOrth i) (pbct minPbcRowOrth i))
    ∧ ¬ orthoAssertHolds (rotFromPbc minPbcRowOrth lenRowOrth)
    ∧ orthoAssertStep (rotFromPbc minPbcRowOrth lenRowOrth)
      = .error "AssertionError" := by
  have hno : ¬ orthoAssertHolds (rotFromPbc minPbcRowOrth lenRowOrth) := by
    intro h
    have h01 := h 0 1
    norm_num [rotFromPbc, pbct, minPbcRowOrth, lenRowOrth, inv3, det3, adj3,
      tol, Matrix.transpose_apply, Matrix.of_apply, Matrix.smul_apply,
      abs] at h01
  refine ⟨?_, ?_, ?_, hno, ?_⟩
  · intro i; fin_cases i <;> norm_num [dot3, Fin.sum_univ_three, minPbcRowOrth]
  · intro i j h
    fin_cases i <;> fin_cases j <;>
      simp_all [dot3, Fin.sum_univ_three, minPbcRowOrth]
  · intro i
    fin_cases i <;>
      exact ⟨by norm_num [lenRowOrth],
        by norm_num [lenRowOrth, dot3, Fin.sum_univ_three, pbct, minPbcRowOrth,
          Matrix.transpose_apply]⟩
  · rw [orthoAssertStep, if_neg hno]

/-- C2, amended.  If the COLUMNS of `min_pbc` (the rows of `pbct`) are
mutually orthogonal and have positive lengths `len`, then the `rot` built in
`main` satisfies `rot.transpose = inv(rot)` exactly, so the 1e-9 assertion
never fires. -/
theorem c2_amended {K : Type} [LinearOrderedField K] (min_pbc : Mat3 K)
    (len : Fin 3 → K) (hpos : ∀ i, 0 < len i)
    (hlen : ∀ i, len i ^ 2 = dot3 (pbct min_pbc i) (pbct min_pbc i))
    (horth : ∀ i j, i ≠ j → dot3 (pbct min_pbc i) (pbct min_pbc j) = 0) :
    (rotFromPbc min_pbc len).transpose = inv3 (rotFromPbc min_pbc len)
    ∧ orthoAssertHolds (rotFromPbc min_pbc len) := by
  have hne : ∀ i, len i ≠ 0 := fun i => ne_of_gt (hpos i)
  have key : rotFromPbc min_pbc len * (rotFromPbc min_pbc len).transpose = 1 := by
    ext i j
    rw [Matrix.mul_apply]
    simp only [rotFromPbc, Matrix.transpose_apply, Matrix.of_apply]
    have hsum : (∑ k, pbct min_pbc i k / len i * (pbct min_pbc j k / len j))
        = dot3 (pbct min_pbc i) (pbct min_pbc j) / (len i * len j) := by
      rw [dot3, Finset.sum_div]
      refine Finset.sum_congr rfl fun k _ => ?_
      field_simp
    rw [hsum]
    by_cases h : i = j
    · subst h
      rw [Matrix.one_apply_eq, ← hlen i, pow_two]
      exact div_self (mul_ne_zero (hne i) (hne i))
    · rw [Matrix.one_apply_ne h, horth i j h, zero_div]
  have htr : (rotFromPbc min_pbc len).transpose = inv3 (rotFromPbc min_pbc len) :=
    (inv3_of_right_inv key).symm
  refine ⟨htr, fun i j => ?_⟩
  rw [← htr, sub_self, abs_zero]
  have : (0 : ℚ) < tol := by rw [tol]; norm_num
  exact_mod_cast Rat.cast_lt (K := K) |>.mpr this

/-- C2, witness for the amended theorem: a concrete column-orthogonal
`min_pbc` with rational column lengths on which the assertion provably
holds. -/
theorem c2_witness :
    ((∀ i, 0 < lenColOrth i)
      ∧ (∀ i, lenColOrth i ^ 2
          = dot3 (pbct minPbcColOrth i) (pbct minPbcColOrth i))
      ∧ (∀ i j, i ≠ j → dot3 (pbct minPbcColOrth i) (pbct minPbcColOrth j) = 0))
    ∧ ((rotFromPbc minPbcColOrth lenColOrth).transpose
        = inv3 (rotFromPbc minPbcColOrth lenColOrth)
      ∧ orthoAssertHolds (rotFromPbc minPbcColOrth lenColOrth)) := by
  have hpos : ∀ i, 0 < lenColOrth i := by
    intro i; fin_cases i <;> norm_num [lenColOrth]
  have hlen : ∀ i,
      lenColOrth i ^ 2 = dot3 (pbct minPbcColOrth i) (pbct minPbcColOrth i) := by
    intro i
    fin_cases i <;> norm_num [lenColOrth, dot3, Fin.sum_univ_three, pbct,
      minPbcColOrth, Matrix.transpose_apply]
  have horth : ∀ i j, i ≠ j →
      dot3 (pbct minPbcColOrth i) (pbct minPbcColOrth j) = 0 := by
    intro i j h
    fin_cases i <;> fin_cases j <;>
      simp_all [dot3, Fin.sum_univ_three, pbct, minPbcColOrth,
        Matrix.transpose_apply] <;> ring
  exact ⟨⟨hpos, hlen, horth⟩, c2_amended minPbcColOrth lenColOrth hpos hlen horth⟩

/-- C3, counterexample.  With `min_dim = (10,10,10)` and a requested x
dimension of -2 nm (scaled to -20 Angstrom), axis 0 is flagged for fitting,
`ceil(-20/10) = -2` is negative and is NOT coerced to 1 (Python `or` only
replaces 0.0), so the fitted dimension is -20: not a positive integer
multiple of `min_dim[0]`, contradicting the claim for negative requests. -/
theorem c3_counterexample :
    (0 : Fin 3) ∈ fit_dim negOpts
    ∧ find_dim negOpts (fun _ => 10) 0 = -20
    ∧ ¬ ∃ k : ℤ, 1 ≤ k ∧ find_dim negOpts (fun _ => 10) 0 = (k : ℚ) * 10 := by
  have hmem : (0 : Fin 3) ∈ fit_dim negOpts := by norm_num [fit_dim, negOpts]
  have hquot : dimScaled negOpts 0 / 10 = ((-2 : ℤ) : ℚ) := by
    norm_num [dimScaled, negOpts]
  have hceil : ⌈dimScaled negOpts 0 / 10⌉ = -2 := by
    rw [hquot, Int.ceil_intCast]
  have hval : find_dim negOpts (fun _ => 10) 0 = -20 := by
    simp only [find_dim, dimFitted, ceilOr1]
    rw [if_neg (by simp [negOpts] : ¬ ((0 : Fin 3) = 2
      ∧ (negOpts.vacuum.getD 0 ≠ 0))), if_pos hmem, hceil]
    norm_num
  refine ⟨hmem, hval, ?_⟩
  rintro ⟨k, hk1, hk⟩
  rw [hval] at hk
  have hk2 : (k : ℚ) = -2 := by linarith
  have : k = -2 := by exact_mod_cast hk2
  omega

/-- C3, amended.  For a flagged axis the fitting loop sets the dimension to
`mult * min_dim[i]` with `mult = ceil(dim[i]/min_dim[i])` coerced to 1
exactly when that ceiling is zero; the result is a positive integer multiple
of `min_dim[i]` whenever the scaled request exceeds `-min_dim[i]` (in
particular for zero and all positive requests); for z, a truthy vacuum
margin is added after fitting. -/
theorem c3_amended (o : FitOptions) (min_dim : Fin 3 → ℚ) (i : Fin 3)
    (hflag : i ∈ fit_dim o) (hpos : 0 < min_dim i) :
    dimFitted o min_dim i
      = (ceilOr1 (dimScaled o i / min_dim i) : ℚ) * min_dim i
    ∧ (-(min_dim i) < dimScaled o i →
        ∃ k : ℤ, 1 ≤ k ∧ dimFitted o min_dim i = (k : ℚ) * min_dim i)
    ∧ (¬ (i = 2 ∧ o.vacuum.getD 0 ≠ 0) →
        find_dim o min_dim i = dimFitted o min_dim i)
    ∧ ((i = 2 ∧ o.vacuum.getD 0 ≠ 0) →
        find_dim o min_dim i = dimFitted o min_dim i + o.vacuum.getD 0) := by
  have heq : dimFitted o min_dim i
      = (ceilOr1 (dimScaled o i / min_dim i) : ℚ) * min_dim i := by
    rw [dimFitted, if_pos hflag]
  refine ⟨heq, ?_, ?_, ?_⟩
  · intro hgt
    by_cases hc : ⌈dimScaled o i / min_dim i⌉ = 0
    · exact ⟨1, le_refl 1, by rw [heq, ceilOr1, if_pos hc]⟩
    · refine ⟨⌈dimScaled o i / min_dim i⌉, ?_, by rw [heq, ceilOr1, if_neg hc]⟩
      have hlt : (-1 : ℚ) < dimScaled o i / min_dim i := by
        rw [lt_div_iff₀ hpos]; linarith
      have : (-1 : ℤ) < ⌈dimScaled o i / min_dim i⌉ :=
        Int.lt_ceil.mpr (by exact_mod_cast hlt)
      omega
  · intro h; rw [find_dim, if_neg h]
  · intro h; rw [find_dim, if_pos h]

/-- C3, witness for the amended theorem: requesting 2 nm on axis 0 with
`min_dim[0] = 15` Angstrom yields a positive integer multiple of 15. -/
theorem c3_witness :
    ∃ k : ℤ, 1 ≤ k ∧ dimFitted posOpts (fun _ => 15) 0 = (k : ℚ) * 15 :=
  (c3_amended posOpts (fun _ => 15) 0 (by norm_num [fit_dim, posOpts])
    (by norm_num)).2.1 (by norm_num [dimScaled, posOpts])

/-- C4, confirmed.  The median-plane branch raises the ValueError exactly
when the inner product of the parsed plane with the axis is non-zero, and
otherwise yields the integerized rotation of the plane by theta/2 about the
axis. -/
theorem c4_median_plane {K : Type} [Field K] (R : Mat3 K)
    (scale_to_integers : (Fin 3 → K) → Fin 3 → ℤ) (m_plane axis : Fin 3 → ℤ) :
    ((∃ e, parseMedianPlane R scale_to_integers m_plane axis = .error e)
      ↔ dotZ m_plane axis ≠ 0)
    ∧ (dotZ m_plane axis = 0 →
        parseMedianPlane R scale_to_integers m_plane axis
          = .ok (scale_to_integers (R.mulVec fun i => (m_plane i : K)))) := by
  by_cases h : dotZ m_plane axis = 0
  · simp [parseMedianPlane, h]
  · simp [parseMedianPlane, h]

/-- C4, witness: the plane (100) is orthogonal to the axis [001], so the
branch succeeds and returns the integerized rotated plane. -/
theorem c4_witness :
    parseMedianPlane (1 : Mat3 ℚ) scaleStub ![1, 0, 0] ![0, 0, 1]
      = .ok (scaleStub ((1 : Mat3 ℚ).mulVec
          fun i => ((![1, 0, 0] : Fin 3 → ℤ) i : ℚ))) :=
  (c4_median_plane (1 : Mat3 ℚ) scaleStub ![1, 0, 0] ![0, 0, 1]).2 (by decide)

/-- C5, counterexample.  When the CSL search finds nothing for a plain
integer sigma, the run does stop on the diagnostic
"CSL not found! Wrong sigma or axis?", but `sys.exit()` is called with no
argument, so the exit status is 0 — success-like, not non-zero as
claimed. -/
theorem c5_counterexample :
    parse_sigma_and_find_theta findThetaNone cubicSigmaStub cubicThetaStub 0
        (fun _ => 0) (.plain 5)
      = .error ⟨"CSL not found! Wrong sigma or axis?", 0⟩
    ∧ ∀ d, parse_sigma_and_find_theta findThetaNone cubicSigmaStub
        cubicThetaStub 0 (fun _ => 0) (.plain 5) = .error d →
        d.exitStatus = 0 := by
  refine ⟨rfl, fun d hd => ?_⟩
  simp only [parse_sigma_and_find_theta, findThetaNone] at hd
  injection hd with h
  rw [← h]

/-- C5, amended.  For a plain integer sigma whose CSL search returns no
solution, `parse_sigma_and_find_theta` stops immediately on the diagnostic
(propagated monadically, so nothing downstream runs and no output is
written, and no fallback theta exists), with exit status 0 from the bare
`sys.exit()`. -/
theorem c5_amended {K : Type}
    (find_theta : (Fin 3 → ℤ) → ℤ → Option K → Option (K × ℤ × ℤ))
    (gcs : (Fin 3 → ℤ) → ℤ → ℤ → ℤ) (gct : (Fin 3 → ℤ) → ℤ → ℤ → K)
    (minAngle45 : K) (axis : Fin 3 → ℤ) (s : ℤ)
    (h : find_theta axis s none = none) :
    parse_sigma_and_find_theta find_theta gcs gct minAngle45 axis (.plain s)
      = .error ⟨"CSL not found! Wrong sigma or axis?", 0⟩ := by
  simp [parse_sigma_and_find_theta, h]

/-- C5, witness for the amended theorem at a concrete unsatisfiable
sigma. -/
theorem c5_witness :
    parse_sigma_and_find_theta findThetaNone cubicSigmaStub cubicThetaStub 0
        (fun _ => 0) (.plain 7)
      = .error ⟨"CSL not found! Wrong sigma or axis?", 0⟩ :=
  c5_amended findThetaNone cubicSigmaStub cubicThetaStub 0 (fun _ => 0) 7 rfl

theorem selFrom_succ (p : Atom → Bool) (n : ℕ) (l : List Atom) :
    selFrom p (n + 1) l = (selFrom p n l).map (· + 1) := by
  induction l generalizing n with
  | nil => rfl
  | cons a t ih => cases hp : p a <;> simp [selFrom, hp, ih]

theorem foldl_eraseIdx_map_succ (is : List ℕ) (a : Atom) (t : List Atom) :
    (is.map (· + 1)).foldl (fun l n => l.eraseIdx n) (a :: t)
      = a :: is.foldl (fun l n => l.eraseIdx n) t := by
  induction is generalizing t with
  | nil => rfl
  | cons i is' ih => simp [List.foldl_cons, List.eraseIdx_cons_succ, ih]

theorem carve_eq_filter (p : Atom → Bool) (atoms : List Atom) :
    (selFrom p 0 atoms).reverse.foldl (fun l n => l.eraseIdx n) atoms
      = atoms.filter (fun a => ! p a) := by
  induction atoms with
  | nil => rfl
  | cons a t ih =>
    rw [selFrom, selFrom_succ, List.reverse_append, List.foldl_append,
      ← List.map_reverse, foldl_eraseIdx_map_succ, ih]
    cases hp : p a <;> simp [hp]

theorem length_filter_not_add (p : Atom → Bool) (l : List Atom) :
    (l.filter fun a => ! p a).length + (l.filter p).length = l.length := by
  induction l with
  | nil => rfl
  | cons a t ih => cases hp : p a <;> simp [hp, ← ih] <;> omega

/-- C6, confirmed.  Edge carving removes exactly the atoms with
0 < y <= pbc_y/2 and z1 < z < z2, keeps every other atom in its original
relative order (the result is a filter of the input), and the count
difference equals the number of atoms satisfying the predicate before
removal. -/
theorem c6_edge_carve (pbc_y z1 z2 : ℚ) (atoms : List Atom) :
    edge_carve pbc_y z1 z2 atoms
      = atoms.filter (fun a => ! edge_predicate pbc_y z1 z2 a)
    ∧ atoms.length = (edge_carve pbc_y z1 z2 atoms).length
        + (atoms.filter (edge_predicate pbc_y z1 z2)).length := by
  have h : edge_carve pbc_y z1 z2 atoms
      = atoms.filter (fun a => ! edge_predicate pbc_y z1 z2 a) :=
    carve_eq_filter (edge_predicate pbc_y z1 z2) atoms
  refine ⟨h, ?_⟩
  rw [h]
  exact (length_filter_not_add (edge_predicate pbc_y z1 z2) atoms).symm

theorem rcnGo_subset (dist : ℚ) (pbc : Fin 3 → ℚ) :
    ∀ (l kept : List Atom) (a : Atom), a ∈ rcnGo dist pbc kept l → a ∈ l := by
  intro l
  induction l with
  | nil => intro kept a h; simp [rcnGo] at h
  | cons x rest ih =>
    intro kept a h
    by_cases hc : (kept.any fun b => closePair dist pbc b x) = true
    · rw [show rcnGo dist pbc kept (x :: rest) = rcnGo dist pbc kept rest by
        simp [rcnGo, hc]] at h
      exact List.mem_cons_of_mem _ (ih kept a h)
    · rw [Bool.not_eq_true] at hc
      rw [show rcnGo dist pbc kept (x :: rest)
          = x :: rcnGo dist pbc (kept ++ [x]) rest by simp [rcnGo, hc]] at h
      rcases List.mem_cons.mp h with rfl | h2
      · exact List.mem_cons_self _ _
      · exact List.mem_cons_of_mem _ (ih (kept ++ [x]) a h2)

theorem rcnGo_removed (dist : ℚ) (pbc : Fin 3 → ℚ) :
    ∀ (l kept : List Atom) (a : Atom), a ∈ l → a ∉ rcnGo dist pbc kept l →
      ∃ b, (b ∈ kept ∨ b ∈ rcnGo dist pbc kept l)
        ∧ closePair dist pbc b a = true := by
  intro l
  induction l with
  | nil => intro kept a ha _; simp at ha
  | cons x rest ih =>
    intro kept a ha hnot
    by_cases hc : (kept.any fun b => closePair dist pbc b x) = true
    · have hr : rcnGo dist pbc kept (x :: rest) = rcnGo dist pbc kept rest := by
        simp [rcnGo, hc]
      rw [hr] at hnot ⊢
      rcases List.mem_cons.mp ha with rfl | hmem
      · obtain ⟨b, hb, hcb⟩ := List.any_eq_true.mp hc
        exact ⟨b, Or.inl hb, hcb⟩
      · exact ih kept a hmem hnot
    · rw [Bool.not_eq_true] at hc
      have hr : rcnGo dist pbc kept (x :: rest)
          = x :: rcnGo dist pbc (kept ++ [x]) rest := by simp [rcnGo, hc]
      rw [hr] at hnot ⊢
      rcases List.mem_cons.mp ha with rfl | hmem
      · exact absurd (List.mem_cons_self _ _) hnot
      · have hnot2 : a ∉ rcnGo dist pbc (kept ++ [x]) rest :=
          fun h => hnot (List.mem_cons_of_mem _ h)
        obtain ⟨b, hb, hcb⟩ := ih (kept ++ [x]) a hmem hnot2
        refine ⟨b, ?_, hcb⟩
        rcases hb with hb | hb
        · rcases List.mem_append.mp hb with hb | hb
          · exact Or.inl hb
          · exact Or.inr (List.mem_cons.mpr (Or.inl (List.mem_singleton.mp hb)))
        · exact Or.inr (List.mem_cons_of_mem _ hb)

theorem rcn_subset (dist : ℚ) (pbc : Fin 3 → ℚ) (l : List Atom) :
    ∀ a ∈ remove_close_neighbours dist pbc l, a ∈ l :=
  fun a h => rcnGo_subset dist pbc l [] a h

theorem rcn_removed (dist : ℚ) (pbc : Fin 3 → ℚ) (l : List Atom) (a : Atom)
    (ha : a ∈ l) (hnot : a ∉ remove_close_neighbours dist pbc l) :
    ∃ b, b ∈ remove_close_neighbours dist pbc l
      ∧ closePair dist pbc b a = true := by
  obtain ⟨b, hb, hcb⟩ := rcnGo_removed dist pbc l [] a ha hnot
  rcases hb with hb | hb
  · simp at hb
  · exact ⟨b, hb, hcb⟩

/-- C10, confirmed.  If every atom of the (non-empty) configuration shares
the first atom's species name, group B is empty and the remove2 branch
raises IndexError at `aa[0].name` instead of completing as a no-op. -/
theorem c10_remove2_single_species (dist : ℚ) (pbc : Fin 3 → ℚ) (a0 : Atom)
    (rest : List Atom) (h : ∀ a ∈ a0 :: rest, a.name = a0.name) :
    remove2Step dist pbc (a0 :: rest)
      = .error "IndexError: list index out of range" := by
  have hB : groupB a0.name (a0 :: rest) = [] := by
    rw [groupB, List.filter_eq_nil_iff]
    intro a ha
    simp [h a ha]
  simp only [remove2Step, groupA]
  rw [List.filter_cons_of_pos (by simp), hB]
  simp [processGroup]
  rfl

/-- C10, witness: a concrete two-atom single-species configuration on which
remove2 raises IndexError. -/
theorem c10_witness :
    remove2Step 1 pbcBox [atomC1, atomC2]
      = .error "IndexError: list index out of range" :=
  c10_remove2_single_species 1 pbcBox atomC1 [atomC2]
    (by simp [atomC1, atomC2])

/-- C7, counterexample.  On a three-species configuration the close "X"/"Y"
pair lands inside group B, and the removal pass deletes `atomY` even though
no other atom shares its species: a pair of atoms of different species IS
removed by the remove2 variant, so the claim fails for non-binary
systems. -/
theorem c7_counterexample :
    remove2Step 1 pbcBox [atomA, atomX, atomY] = .ok [atomA, atomX]
    ∧ atomY ∈ [atomA, atomX, atomY]
    ∧ atomY ∉ [atomA, atomX]
    ∧ (∀ b ∈ [atomA, atomX, atomY], b.name = atomY.name → b = atomY) := by
  have hXY : closePair 1 pbcBox atomX atomY = true := by
    simp [closePair, pbcDist2, minImage, atomX, atomY, pbcBox,
      Fin.sum_univ_three, round_zero]
  have hga : groupA atomA.name [atomA, atomX, atomY] = [atomA] := by
    simp [groupA, atomA, atomX, atomY]
  have hgb : groupB atomA.name [atomA, atomX, atomY] = [atomX, atomY] := by
    simp [groupB, atomA, atomX, atomY]
  have hrA : remove_close_neighbours 1 pbcBox [atomA] = [atomA] := by
    simp [remove_close_neighbours, rcnGo]
  have hrB : remove_close_neighbours 1 pbcBox [atomX, atomY] = [atomX] := by
    simp [remove_close_neighbours, rcnGo, hXY]
  have hp1 : processGroup 1 pbcBox [atomA] = .ok [atomA] := by
    simp [processGroup, hrA]
  have hp2 : processGroup 1 pbcBox [atomX, atomY] = .ok [atomX] := by
    simp [processGroup, hrB]
  refine ⟨?_, by simp, by simp [atomA, atomX, atomY], by simp [atomA, atomX, atomY]⟩
  simp only [remove2Step]
  rw [hga, hgb, hp1, hp2]
  rfl

/-- C7, amended.  For every non-empty atom list whose group B is non-empty,
remove2 sets the final atom list to the filtered group A followed by the
filtered group B; and provided at most two species are present (group B is
pure), every removed atom has a same-species close partner among the kept
atoms, so no cross-species pair is removed.  (On a single-species list the
branch raises IndexError instead — claim C10 — and with three or more
species group B mixes species and cross-species pairs in it are removed.) -/
theorem c7_amended (dist : ℚ) (pbc : Fin 3 → ℚ) (a0 : Atom) (rest : List Atom)
    (hB : groupB a0.name (a0 :: rest) ≠ [])
    (hbinary : ∀ x ∈ a0 :: rest, ∀ y ∈ a0 :: rest,
      x.name ≠ a0.name → y.name ≠ a0.name → x.name = y.name) :
    remove2Step dist pbc (a0 :: rest)
      = .ok (remove_close_neighbours dist pbc (groupA a0.name (a0 :: rest))
          ++ remove_close_neighbours dist pbc (groupB a0.name (a0 :: rest)))
    ∧ ∀ a ∈ a0 :: rest,
        a ∉ remove_close_neighbours dist pbc (groupA a0.name (a0 :: rest))
          ++ remove_close_neighbours dist pbc (groupB a0.name (a0 :: rest)) →
        ∃ b, (b ∈ remove_close_neighbours dist pbc (groupA a0.name (a0 :: rest))
            ++ remove_close_neighbours dist pbc (groupB a0.name (a0 :: rest)))
          ∧ b.name = a.name ∧ closePair dist pbc b a = true := by
  constructor
  · obtain ⟨x, xs, hxs⟩ := List.exists_cons_of_ne_nil hB
    have hga : groupA a0.name (a0 :: rest)
        = a0 :: rest.filter (fun i => i.name == a0.name) := by
      rw [groupA, List.filter_cons_of_pos (by simp)]
    have hp1 : processGroup dist pbc (groupA a0.name (a0 :: rest))
        = .ok (remove_close_neighbours dist pbc (groupA a0.name (a0 :: rest))) := by
      rw [hga]; rfl
    have hp2 : processGroup dist pbc (groupB a0.name (a0 :: rest))
        = .ok (remove_close_neighbours dist pbc (groupB a0.name (a0 :: rest))) := by
      rw [hxs]; rfl
    simp only [remove2Step, hp1, hp2]
    rfl
  · intro a ha hnot
    by_cases hname : a.name = a0.name
    · have haA : a ∈ groupA a0.name (a0 :: rest) :=
        List.mem_filter.mpr ⟨ha, by simp [hname]⟩
      have hnotA :
          a ∉ remove_close_neighbours dist pbc (groupA a0.name (a0 :: rest)) :=
        fun h => hnot (List.mem_append_left _ h)
      obtain ⟨b, hb, hcb⟩ := rcn_removed dist pbc _ a haA hnotA
      have hbA : b ∈ groupA a0.name (a0 :: rest) := rcn_subset dist pbc _ b hb
      have hbname : b.name = a0.name := by
        have hf := List.of_mem_filter hbA
        simpa using hf
      exact ⟨b, List.mem_append_left _ hb, by rw [hbname, hname], hcb⟩
    · have haB : a ∈ groupB a0.name (a0 :: rest) :=
        List.mem_filter.mpr ⟨ha, by simp [hname]⟩
      have hnotB :
          a ∉ remove_close_neighbours dist pbc (groupB a0.name (a0 :: rest)) :=
        fun h => hnot (List.mem_append_right _ h)
      obtain ⟨b, hb, hcb⟩ := rcn_removed dist pbc _ a haB hnotB
      have hbB : b ∈ groupB a0.name (a0 :: rest) := rcn_subset dist pbc _ b hb
      have hbname : b.name ≠ a0.name := by
        have hf := List.of_mem_filter hbB
        simpa using hf
      exact ⟨b, List.mem_append_right _ hb,
        hbinary b (List.mem_of_mem_filter hbB) a ha hbname hname, hcb⟩

/-- C7, witness for the amended theorem on a concrete binary two-atom
configuration. -/
theorem c7_witness :
    remove2Step 1 pbcBox [atomA, atomB]
      = .ok (remove_close_neighbours 1 pbcBox (groupA atomA.name [atomA, atomB])
          ++ remove_close_neighbours 1 pbcBox (groupB atomA.name [atomA, atomB]))
    ∧ ∀ a ∈ [atomA, atomB],
        a ∉ remove_close_neighbours 1 pbcBox (groupA atomA.name [atomA, atomB])
          ++ remove_close_neighbours 1 pbcBox (groupB atomA.name [atomA, atomB]) →
        ∃ b, (b ∈ remove_close_neighbours 1 pbcBox (groupA atomA.name [atomA, atomB])
            ++ remove_close_neighbours 1 pbcBox (groupB atomA.name [atomA, atomB]))
          ∧ b.name = a.name ∧ closePair 1 pbcBox b a = true :=
  c7_amended 1 pbcBox atomA [atomB] (by simp [groupB, atomA, atomB])
    (by decide)

theorem exceptBind_ok {ε α β : Type} (a : α) (f : α → Except ε β) :
    (Except.ok (ε := ε) a >>= f) = f a := rfl

theorem exceptBind_error {ε α β : Type} (e : ε) (f : α → Except ε β) :
    ((Except.error e : Except ε α) >>= f) = Except.error e := rfl

theorem applyOption_fields (o o' : ParsedOpts) (t : OptTok)
    (h : applyOption o t = .ok o') :
    (o.fit.isSome = true → o'.fit.isSome = true)
    ∧ (o.zfit.isSome = true → o'.zfit.isSome = true)
    ∧ (o.mono1.isSome = true → o'.mono1.isSome = true)
    ∧ (o.mono2.isSome = true → o'.mono2.isSome = true)
    ∧ (o.all.isSome = true → o'.all.isSome = true)
    ∧ (o.allall.isSome = true → o'.allall.isSome = true)
    ∧ (o.remove_dist.isSome = true → o'.remove_dist.isSome = true)
    ∧ (o.remove_dist2.isSome = true → o'.remove_dist2.isSome = true)
    ∧ (o.vacuum.isSome = true → o'.vacuum.isSome = true) := by
  cases t <;>
    simp only [applyOption, exceptBind_ok, exceptBind_error] at h <;>
    (try split_ifs at h) <;>
    first
      | exact Except.noConfusion h
      | (injection h with h2; subst h2; simp)

theorem markerOfKind_mono (k : ℕ) (o o' : ParsedOpts) (t : OptTok)
    (h : applyOption o t = .ok o') (hm : markerOfKind k o = true) :
    markerOfKind k o' = true := by
  obtain ⟨f0, f1, f2, f3, f4, f5, f6, f7, f8⟩ := applyOption_fields o o' t h
  simp only [markerOfKind] at hm ⊢
  split_ifs at hm ⊢ <;> simp_all

theorem applyOption_marker (o o' : ParsedOpts) (t : OptTok)
    (hk : kindChecked t.kind = true) (h : applyOption o t = .ok o') :
    markerOfKind t.kind o' = true := by
  cases t <;>
    simp [OptTok.kind, kindChecked] at hk <;>
    simp only [applyOption, exceptBind_ok, exceptBind_error] at h <;>
    (try split_ifs at h) <;>
    first
      | exact Except.noConfusion h
      | (injection h with h2; subst h2; simp [OptTok.kind, markerOfKind])

theorem applyOption_dup (o : ParsedOpts) (t : OptTok)
    (hk : kindChecked t.kind = true) (hm : markerOfKind t.kind o = true) :
    ∃ e, applyOption o t = .error e := by
  cases t
  case nofit =>
    by_cases hc : o.fit = none
    · exact ⟨.valueError "Unknown option: nofit",
        by simp [applyOption, hc, exceptBind_ok]⟩
    · exact ⟨.assertionError, by simp [applyOption, hc, exceptBind_error]⟩
  case nozfit =>
    have hz : o.zfit ≠ none := Option.ne_none_iff_isSome.mpr
      (by simpa [markerOfKind, OptTok.kind] using hm)
    exact ⟨.assertionError, by simp [applyOption, hz, exceptBind_ok]⟩
  case mono1 =>
    have hz : o.mono1 ≠ none := Option.ne_none_iff_isSome.mpr
      (by simpa [markerOfKind, OptTok.kind] using hm)
    exact ⟨.assertionError, by simp [applyOption, hz, exceptBind_ok]⟩
  case mono2 =>
    have hz : o.mono2 ≠ none := Option.ne_none_iff_isSome.mpr
      (by simpa [markerOfKind, OptTok.kind] using hm)
    exact ⟨.assertionError, by simp [applyOption, hz, exceptBind_ok]⟩
  case all =>
    have hz : o.all ≠ none := Option.ne_none_iff_isSome.mpr
      (by simpa [markerOfKind, OptTok.kind] using hm)
    exact ⟨.assertionError, by simp [applyOption, hz, exceptBind_ok]⟩
  case allall =>
    have hz : o.allall ≠ none := Option.ne_none_iff_isSome.mpr
      (by simpa [markerOfKind, OptTok.kind] using hm)
    exact ⟨.assertionError, by simp [applyOption, hz, exceptBind_ok]⟩
  case remove d =>
    have hz : o.remove_dist ≠ none := Option.ne_none_iff_isSome.mpr
      (by simpa [markerOfKind, OptTok.kind] using hm)
    exact ⟨.assertionError, by simp [applyOption, hz, exceptBind_ok]⟩
  case remove2 d =>
    have hz : o.remove_dist2 ≠ none := Option.ne_none_iff_isSome.mpr
      (by simpa [markerOfKind, OptTok.kind] using hm)
    exact ⟨.assertionError, by simp [applyOption, hz, exceptBind_ok]⟩
  case vacuum v =>
    have hz : o.vacuum ≠ none := Option.ne_none_iff_isSome.mpr
      (by simpa [markerOfKind, OptTok.kind] using hm)
    exact ⟨.assertionError, by simp [applyOption, hz, exceptBind_ok]⟩
  case lattice name => exact absurd hk (by simp [OptTok.kind, kindChecked])
  case shift s => exact absurd hk (by simp [OptTok.kind, kindChecked])
  case edge z1 z2 => exact absurd hk (by simp [OptTok.kind, kindChecked])

theorem parse_options_marker_error (t' : OptTok) (l3 : List OptTok)
    (hk : kindChecked t'.kind = true) :
    ∀ (l : List OptTok) (o : ParsedOpts), markerOfKind t'.kind o = true →
      ∃ e, parse_options (l ++ t' :: l3) o = .error e := by
  intro l
  induction l with
  | nil =>
    intro o hm
    obtain ⟨e, he⟩ := applyOption_dup o t' hk hm
    exact ⟨e, by simp [parse_options, List.foldlM_cons, he, exceptBind_error]⟩
  | cons x l ih =>
    intro o hm
    cases hax : applyOption o x with
    | error e =>
      exact ⟨e, by simp [parse_options, List.foldlM_cons, hax, exceptBind_error]⟩
    | ok o2 =>
      obtain ⟨e, he⟩ := ih o2 (markerOfKind_mono t'.kind o o2 x hax hm)
      refine ⟨e, ?_⟩
      simpa [parse_options, List.foldlM_cons, hax, exceptBind_ok] using he

/-- C8, the code bug demonstrated.  The documented option "nofit" is NOT
accepted by the option loop: the first `if` sets `fit = False`, but the
token then falls through the second if/elif chain into
`raise ValueError("Unknown option: nofit")`, so every command line whose
option segment contains "nofit" dies instead of disabling the fitting. -/
theorem c8_nofit_unknown_option :
    parse_options [OptTok.nofit] initOpts
      = .error (.valueError "Unknown option: nofit")
    ∧ ∀ o, parse_options [OptTok.nofit] initOpts ≠ .ok o := by
  refine ⟨rfl, fun o h => ?_⟩
  rw [show parse_options [OptTok.nofit] initOpts
    = .error (.valueError "Unknown option: nofit") from rfl] at h
  exact Except.noConfusion h

/-- C9, counterexample.  Giving `lattice:` twice is silently accepted: the
loop keeps the last value ("xyz") and raises nothing, contradicting the
claim that every documented option is duplicate-checked.  (`shift:` and
`edge:` behave the same way.) -/
theorem c9_counterexample :
    parse_options [OptTok.lattice "abc", OptTok.lattice "xyz"] initOpts
      = .ok { initOpts with lattice_name := "xyz" }
    ∧ ∀ e, parse_options [OptTok.lattice "abc", OptTok.lattice "xyz"] initOpts
        ≠ .error e := by
  refine ⟨rfl, fun e h => ?_⟩
  rw [show parse_options [OptTok.lattice "abc", OptTok.lattice "xyz"] initOpts
    = .ok { initOpts with lattice_name := "xyz" } from rfl] at h
  exact Except.noConfusion h

/-- C9, amended.  Duplicating any of the assert-protected options (nozfit,
mono1, mono2, all, allall, remove, remove2, vacuum) anywhere on the line
makes the loop raise (nofit raises even on its first occurrence); but the
documented options `lattice:`, `shift:` and `edge:` carry no duplicate
assert and the loop silently keeps the last value for them. -/
theorem c9_amended (l1 l2 l3 : List OptTok) (t t' : OptTok)
    (hkind : t.kind = t'.kind) (hk : kindChecked t.kind = true) :
    ∃ e, parse_options (l1 ++ t :: l2 ++ t' :: l3) initOpts = .error e := by
  have hk' : kindChecked t'.kind = true := by rw [← hkind]; exact hk
  have haux : ∀ (l : List OptTok) (o : ParsedOpts),
      ∃ e, parse_options (l ++ t :: l2 ++ t' :: l3) o = .error e := by
    intro l
    induction l with
    | nil =>
      intro o
      cases hat : applyOption o t with
      | error e =>
        exact ⟨e, by simp [parse_options, List.foldlM_cons, hat,
          exceptBind_error]⟩
      | ok o2 =>
        have hm2 : markerOfKind t'.kind o2 = true := by
          rw [← hkind]; exact applyOption_marker o o2 t hk hat
        obtain ⟨e, he⟩ := parse_options_marker_error t' l3 hk' l2 o2 hm2
        refine ⟨e, ?_⟩
        simpa [parse_options, List.foldlM_cons, hat, exceptBind_ok] using he
    | cons x l ih =>
      intro o
      cases hax : applyOption o x with
      | error e =>
        exact ⟨e, by simp [parse_options, List.foldlM_cons, hax,
          exceptBind_error]⟩
      | ok o2 =>
        obtain ⟨e, he⟩ := ih o2
        refine ⟨e, ?_⟩
        simpa [parse_options, List.foldlM_cons, hax, exceptBind_ok] using he
  exact haux l1 initOpts

/-- C9, witness for the amended theorem: the option segment
`mono1 mono1` raises. -/
theorem c9_witness :
    ∃ e, parse_options [OptTok.mono1, OptTok.mono1] initOpts = .error e :=
  c9_amended [] [] [] OptTok.mono1 OptTok.mono1 rfl rfl

end Gosam
